import Mathlib

/- Verification development for the uasyncio core scheduler (src/core.py).

   Shallow embedding conventions:
   - MicroPython ticks are fixed-width unsigned counters; the wraparound
     arithmetic (time.ticks_add / time.ticks_diff) is embedded below with the
     width w as a parameter, values as Nat mod 2 ^ w and differences as Int.
   - The main-loop model (runLoop) uses an idealized non-wrapping simulated
     clock (Int), matching the non-wrapping simulated-clock reading of the
     observable scenarios; EventLoop.wait delay is the
     default time.sleep_ms, modelled as advancing the clock by exactly delay.
     The I/O reactor (add_reader and friends) is absent, as in the default
     EventLoop class: a coroutine handed to it is parked outside the loop.
   - A Python generator is modelled as the list of values it will yield, one
     per resumption; an exhausted list is a generator whose next resumption
     raises StopIteration. Resumption arguments (cb.send) do not influence
     the modelled yields, which is faithful for every behaviour proved here.
   - Generators are given numeric identities (tid) so that object identity
     of a scheduled coroutine is expressible; the loop assigns fresh ids to
     spawned generators. -/

/-- time.ticks_add over a w-bit tick counter: (t + d) mod 2 ^ w. -/
def ticks_add (w : Nat) (t : Nat) (d : Int) : Nat :=
  (((t : Int) + d) % ((2 : Int) ^ w)).toNat

/-- time.ticks_diff over a w-bit tick counter: signed circular distance a - b,
taken in the half-open window centered at 0. -/
def ticks_diff (w : Nat) (a b : Nat) : Int :=
  (((a : Int) - (b : Int) + (2 : Int) ^ (w - 1)) % ((2 : Int) ^ w)) - (2 : Int) ^ (w - 1)

/-- Modelled from the spec: the fixed-capacity time-ordered queue. The utimeq
module used by core.py (self.q, self.lpq) is a separate C module that is not
part of the source tree; per spec sections 3 and 4.2 its capacity is fixed at
construction and a push beyond capacity fails loudly with CapacityExceeded,
neither dropping an entry nor growing the storage. Entries are (tick, id)
pairs; pops release minimal-time entries first, FIFO among ties. -/
structure UTimeQ where
  cap : Nat
  entries : List (Nat × Nat)
deriving DecidableEq

/-- Error raised by a queue push beyond the configured capacity. -/
inductive QErr where
  | CapacityExceeded
deriving DecidableEq

/-- Modelled from the spec: push fails with CapacityExceeded when the queue
already holds cap entries, and then leaves the stored entries unchanged;
otherwise the entry is added. The first component is the raised error. -/
def UTimeQ.push (q : UTimeQ) (due payload : Nat) : Option QErr × UTimeQ :=
  if q.entries.length < q.cap then
    (none, { q with entries := q.entries ++ [(due, payload)] })
  else
    (some .CapacityExceeded, q)

/-- The two queues built by EventLoop.__init__(len): divmod(len, 100000)
yields (lpqlen, qlen), then self.q = utimeq.utimeq(qlen) and
self.lpq = utimeq.utimeq(lpqlen). -/
structure EventLoopQs where
  q : UTimeQ
  lpq : UTimeQ
deriving DecidableEq

/-- EventLoop.__init__(len): lpqlen, qlen = divmod(len, 100000);
construct the normal queue with capacity qlen and the low-priority queue
with capacity lpqlen. -/
def EventLoop_init (len : Nat) : EventLoopQs :=
  let lpqlen := len / 100000
  let qlen := len % 100000
  ⟨⟨qlen, []⟩, ⟨lpqlen, []⟩⟩

/-- get_event_loop(qlen, lpqlen): module-level singleton accessor. The module
variable _event_loop is threaded explicitly; on None it constructs
_event_loop_class(qlen + 1000000 * lpqlen) and stores it, otherwise the
stored loop is returned and the arguments are ignored. -/
def get_event_loop (ev : Option EventLoopQs) (qlen lpqlen : Nat) :
    EventLoopQs × Option EventLoopQs :=
  match ev with
  | none =>
      let l := EventLoop_init (qlen + 1000000 * lpqlen)
      (l, some l)
  | some l => (l, some l)

/-- A value a modelled generator can yield on one resumption. The syscall
variants mirror the SysCall1 subclasses of core.py; yCoro is a bare nested
generator, yInt a bare integer delay, yLowPriority the low_priority
sentinel, yNone a bare None, and yOther any unsupported value. -/
inductive YieldV where
  | ySleep (s : Int)
  | ySleepMs (ms : Int)
  | yIORead (fd : Int)
  | yIOWrite (fd : Int)
  | yIOReadDone (fd : Int)
  | yIOWriteDone (fd : Int)
  | yStopLoop (r : Int)
  | yCoro (g : List YieldV)
  | yInt (n : Int)
  | yLowPriority
  | yNone
  | yOther

/-- isinstance(ret, SysCall1) for the modelled yield values. -/
def isSysCall1 : YieldV → Bool
  | .ySleep _ => true
  | .ySleepMs _ => true
  | .yIORead _ => true
  | .yIOWrite _ => true
  | .yIOReadDone _ => true
  | .yIOWriteDone _ => true
  | .yStopLoop _ => true
  | _ => false

/-- What run_forever does with a yielded value, before the common reschedule
call at the bottom of the loop body. -/
inductive StepAction where
  | resched (d : Int)
  | spawn (g : List YieldV)
  | addReader (fd : Int)
  | addWriter (fd : Int)
  | removeReader (fd : Int)
  | removeWriter (fd : Int)
  | stop (r : Int)
  | lowPri
  | unknownSyscall
  | unsupported

/-- The yield-interpretation block of EventLoop.run_forever (lines 118-154).
For a SysCall1 value the code first runs
  if isinstance(ret, Sleep): delay = int(arg * 1000)
and then a SEPARATE chain
  if isinstance(ret, SleepMs): delay = arg
  elif isinstance(ret, IORead): ... continue
  elif isinstance(ret, IOWrite): ... continue
  elif isinstance(ret, IOReadDone): ...
  elif isinstance(ret, IOWriteDone): ...
  elif isinstance(ret, StopLoop): return arg
  else: assert False with the Unknown-syscall message
Sleep is not a subclass of any class in the second chain, so a Sleep value
reaches the else branch and trips the Unknown-syscall assertion; the delay
it stored in the first if is a dead store. Non-SysCall1 values follow the
outer elif chain (lines 142-154). -/
def interpretYield (ret : YieldV) : StepAction :=
  if isSysCall1 ret then
    match ret with
    | .ySleepMs ms => .resched ms
    | .yIORead fd => .addReader fd
    | .yIOWrite fd => .addWriter fd
    | .yIOReadDone fd => .removeReader fd
    | .yIOWriteDone fd => .removeWriter fd
    | .yStopLoop r => .stop r
    | _ => .unknownSyscall
  else
    match ret with
    | .yCoro g => .spawn g
    | .yInt n => .resched n
    | .yLowPriority => .lowPri
    | .yNone => .resched 0
    | _ => .unsupported

/-- The cb slot of a popped task entry: a plain callable, or a generator with
its identity and remaining yields. -/
inductive Runnable where
  | cb
  | coro (tid : Nat) (code : List YieldV)

/-- Runnable.tidOf extracts the generator identity, if any. -/
def Runnable.tidOf : Runnable → Option Nat
  | .cb => none
  | .coro t _ => some t

/-- One queue entry: (due tick, runnable); args are not modelled (they do
not influence the modelled yields). -/
structure Entry where
  due : Int
  run : Runnable

/-- State of the loop: the normal queue q, the low-priority queue lpq (both
as lists in push order; pops select the minimal due time, FIFO among ties,
which is the stable order utimeq maintains), the simulated clock, and the
next fresh generator id. -/
structure LoopState where
  q : List Entry
  lpq : List Entry
  clock : Int
  nextTid : Nat

/-- Pop of a utimeq heap: remove and return the first entry of minimal due
time (stable among equal times). -/
def popMin : List Entry → Option (Entry × List Entry)
  | [] => none
  | e :: es =>
    match popMin es with
    | none => some (e, [])
    | some (m, rest) =>
      if e.due ≤ m.due then some (e, es) else some (m, e :: rest)

/-- Result of the task-selection part of the run_forever body. -/
inductive Sel where
  | idle
  | run (e : Entry) (fromLp : Bool) (st : LoopState)

/-- The selection part of the run_forever body (lines 74-104). With the
normal queue non-empty the inner while peeks its head; if it is due it is
popped, otherwise a non-empty low-priority queue is popped instead, and
otherwise the loop waits for the remaining delay and re-peeks - under the
exact simulated sleep the head is then due, so the wait iteration is folded
into popping the head with the clock advanced to its due time. With the
normal queue empty, the low-priority queue is popped when non-empty, and
otherwise wait(-1) blocks; with no reactor modelled nothing can wake the
loop, reported as Sel.idle. -/
def selectFrom (st : LoopState) : Sel :=
  match popMin st.q with
  | some (e, qrest) =>
    if e.due - st.clock ≤ 0 then
      .run e false { st with q := qrest }
    else
      match popMin st.lpq with
      | some (le, lrest) => .run le true { st with lpq := lrest }
      | none => .run e false { st with q := qrest, clock := e.due }
  | none =>
    match popMin st.lpq with
    | some (le, lrest) => .run le true { st with lpq := lrest }
    | none => .idle

/-- Terminal outcome of a bounded run of the loop. -/
inductive Outcome where
  | stopped (r : Int)
  | idle
  | assertUnknownSyscall
  | assertUnsupportedYield
  | outOfFuel
deriving DecidableEq

/-- Observable event: a callback invocation or a generator resumption,
recording the due time of the popped entry and the clock at resumption. -/
inductive Ev where
  | callCb (due : Int) (clk : Int)
  | resumeC (tid : Nat) (due : Int) (clk : Int)
deriving DecidableEq

/-- Event recorded when the popped entry e is executed at clock clk. -/
def evOf (e : Entry) (clk : Int) : Ev :=
  match e.run with
  | .cb => .callCb e.due clk
  | .coro t _ => .resumeC t e.due clk

/-- Execution outcome of running one popped entry. -/
inductive ExecOut where
  | next (st : LoopState)
  | halt (o : Outcome)

/-- The execution part of the run_forever body (lines 105-159). A callable
is invoked and dropped. A generator with no remaining yields raises
StopIteration on resumption: the except branch fires and the loop continues
without rescheduling. Otherwise the yielded head is interpreted; resched d
falls through to call_later_ms_(d, cb, args) which pushes at
ticks_add(time(), d); spawn performs call_soon(ret) - a push of the nested
generator at the current time under a fresh id - and then falls through to
the same reschedule with delay 0; the IORead / IOWrite registrations hand
the generator to the absent reactor; the IO-done variants remove a handle
and fall through with delay 0; StopLoop returns its payload; the
low-priority sentinel pushes onto lpq at the current time and skips the
reschedule; the two assertion branches abort the loop. -/
def execEntry (st : LoopState) (e : Entry) : ExecOut :=
  match e.run with
  | .cb => .next st
  | .coro tid code =>
    match code with
    | [] => .next st
    | y :: rest =>
      match interpretYield y with
      | .resched d =>
          .next { st with q := st.q ++ [⟨st.clock + d, .coro tid rest⟩] }
      | .spawn g =>
          .next { st with
            q := st.q ++ [⟨st.clock, .coro st.nextTid g⟩,
                          ⟨st.clock + 0, .coro tid rest⟩],
            nextTid := st.nextTid + 1 }
      | .addReader _ => .next st
      | .addWriter _ => .next st
      | .removeReader _ =>
          .next { st with q := st.q ++ [⟨st.clock + 0, .coro tid rest⟩] }
      | .removeWriter _ =>
          .next { st with q := st.q ++ [⟨st.clock + 0, .coro tid rest⟩] }
      | .stop r => .halt (.stopped r)
      | .lowPri =>
          .next { st with lpq := st.lpq ++ [⟨st.clock, .coro tid rest⟩] }
      | .unknownSyscall => .halt .assertUnknownSyscall
      | .unsupported => .halt .assertUnsupportedYield

/-- EventLoop.run_forever, fuel-bounded: repeatedly select a task, record
its execution event, and execute it, until StopLoop returns, an assertion
fires, or both queues are empty forever. -/
def runLoop : Nat → LoopState → List Ev × Outcome
  | 0, _ => ([], .outOfFuel)
  | fuel + 1, st =>
    match selectFrom st with
    | .idle => ([], .idle)
    | .run e _ st1 =>
      let ev := evOf e st1.clock
      match execEntry st1 e with
      | .next st2 =>
          let r := runLoop fuel st2
          (ev :: r.1, r.2)
      | .halt o => ([ev], o)

/-- The wrapper generator built by run_until_complete:
def _run_and_stop(): yield from coro; yield StopLoop(0).
It forwards every yield of coro and, after the natural completion of coro,
yields StopLoop(0). -/
def run_and_stop (coro : List YieldV) : List YieldV :=
  coro ++ [.yStopLoop 0]

/-- State after the call_soon(_run_and_stop()) performed by
run_until_complete: the wrapper is pushed on the normal queue at the current
time, under a fresh generator id. -/
def run_until_complete_start (st : LoopState) (coro : List YieldV) : LoopState :=
  { st with
    q := st.q ++ [⟨st.clock, .coro st.nextTid (run_and_stop coro)⟩],
    nextTid := st.nextTid + 1 }

/-- EventLoop.run_until_complete(coro): schedules the wrapper and calls
self.run_forever(); the body has no return statement, so the value
run_forever produced is discarded and the Python function returns None. -/
def run_until_complete (fuel : Nat) (st : LoopState) (coro : List YieldV) :
    Option Int :=
  let _ := runLoop fuel (run_until_complete_start st coro)
  none

/-- Generator ids present in a list of entries. -/
def tidsOf (l : List Entry) : List Nat :=
  l.filterMap (fun e => e.run.tidOf)

/-- Generator ids present anywhere in the two queues of a state. -/
def coroTids (st : LoopState) : List Nat :=
  tidsOf st.q ++ tidsOf st.lpq

/-- Claim C9: for every representable w-bit tick t and every signed delta d of
magnitude below half the counter range, diff(add(t, d), t) = d. -/
theorem ticks_diff_add_roundtrip (w : Nat) (t : Nat) (d : Int)
    (hw : 1 ≤ w) (_ht : t < 2 ^ w)
    (hlo : -((2 : Int) ^ (w - 1)) < d) (hhi : d < (2 : Int) ^ (w - 1)) :
    ticks_diff w (ticks_add w t d) t = d := by
  have hP : (0 : Int) < 2 ^ w := by positivity
  have hw1 : w - 1 + 1 = w := Nat.succ_pred_eq_of_pos hw
  have hPH : (2 : Int) ^ w = 2 * 2 ^ (w - 1) := by
    conv_lhs => rw [← hw1]
    rw [pow_succ]; ring
  have hH : (0 : Int) < 2 ^ (w - 1) := by positivity
  have h0 : (0 : Int) ≤ ((t : Int) + d) % 2 ^ w := Int.emod_nonneg _ (ne_of_gt hP)
  unfold ticks_diff ticks_add
  rw [Int.toNat_of_nonneg h0]
  rw [Int.emod_def ((t : Int) + d) ((2 : Int) ^ w)]
  have harr : (t : Int) + d - 2 ^ w * (((t : Int) + d) / 2 ^ w) - t + 2 ^ (w - 1)
      = (d + 2 ^ (w - 1)) + 2 ^ w * (-(((t : Int) + d) / 2 ^ w)) := by ring
  rw [harr, Int.add_mul_emod_self_left]
  rw [Int.emod_eq_of_lt (by omega) (by omega)]
  omega

/-- Witness for C9 at w = 4, t = 15, d = -3. -/
theorem ticks_diff_add_roundtrip_witness :
    1 ≤ 4 ∧ 15 < 2 ^ 4 ∧ -((2 : Int) ^ (4 - 1)) < -3 ∧ (-3 : Int) < 2 ^ (4 - 1)
    ∧ ticks_diff 4 (ticks_add 4 15 (-3)) 15 = -3 :=
  ⟨by norm_num, by norm_num, by norm_num, by norm_num,
   ticks_diff_add_roundtrip 4 15 (-3) (by norm_num) (by norm_num)
     (by norm_num) (by norm_num)⟩

/-- Claim C3: the first get_event_loop(qlen, lpqlen) call, for qlen below
100000, builds the normal queue with capacity qlen and the low-priority
queue with capacity 10 * lpqlen (the encoder multiplies by 1000000 while the
constructor decodes with divmod by 100000). -/
theorem get_event_loop_capacities (qlen lpqlen : Nat) (h : qlen < 100000) :
    (get_event_loop none qlen lpqlen).1.q.cap = qlen
    ∧ (get_event_loop none qlen lpqlen).1.lpq.cap = 10 * lpqlen := by
  constructor <;> simp only [get_event_loop, EventLoop_init] <;> omega

/-- Witness for C3 at qlen = 42, lpqlen = 7. -/
theorem get_event_loop_capacities_witness :
    (get_event_loop none 42 7).1.q.cap = 42
    ∧ (get_event_loop none 42 7).1.lpq.cap = 70 :=
  ⟨(get_event_loop_capacities 42 7 (by norm_num)).1,
   (get_event_loop_capacities 42 7 (by norm_num)).2⟩

/-- Claim C10: get_event_loop is a singleton accessor: the first call builds
the loop from its own arguments, and every later call returns the stored
loop unchanged, ignoring its arguments. -/
theorem get_event_loop_singleton (q1 l1 q2 l2 : Nat) (cfg : EventLoopQs) :
    (get_event_loop none q1 l1).1 = EventLoop_init (q1 + 1000000 * l1)
    ∧ get_event_loop (get_event_loop none q1 l1).2 q2 l2
        = ((get_event_loop none q1 l1).1, (get_event_loop none q1 l1).2)
    ∧ get_event_loop (some cfg) q2 l2 = (cfg, some cfg) :=
  ⟨rfl, rfl, rfl⟩

/-- Claim C8: a push on a queue already holding its configured capacity of
entries fails with CapacityExceeded and leaves the stored entries unchanged. -/
theorem push_at_capacity_fails (q : UTimeQ) (due payload : Nat)
    (h : q.entries.length = q.cap) :
    UTimeQ.push q due payload = (some .CapacityExceeded, q) := by
  simp [UTimeQ.push, h]

/-- Witness for C8: a capacity-2 queue holding two entries rejects a third. -/
theorem push_at_capacity_fails_witness :
    (UTimeQ.mk 2 [(0, 0), (1, 1)]).entries.length = (UTimeQ.mk 2 [(0, 0), (1, 1)]).cap
    ∧ UTimeQ.push (UTimeQ.mk 2 [(0, 0), (1, 1)]) 5 2
        = (some .CapacityExceeded, UTimeQ.mk 2 [(0, 0), (1, 1)]) :=
  ⟨rfl, push_at_capacity_fails ⟨2, [(0, 0), (1, 1)]⟩ 5 2 rfl⟩

/-- Claim C1 (code bug): a generator yielding Sleep(1) is NOT rescheduled at
now + 1000 ms; the broken if / elif chain sends the Sleep value into the
else branch, so the loop dies with the Unknown-syscall assertion. -/
theorem sleep_syscall_unknown_assert :
    interpretYield (.ySleep 1) = .unknownSyscall
    ∧ runLoop 2 ⟨[⟨0, .coro 0 [.ySleep 1]⟩], [], 0, 1⟩
        = ([.resumeC 0 0 0], .assertUnknownSyscall) :=
  ⟨rfl, rfl⟩

/-- Counterexample for C2: on the empty coroutine, the loop does stop with
StopLoop payload 0, but run_until_complete itself returns None (its body has
no return statement), not 0. -/
theorem run_until_complete_returns_none_cex :
    run_until_complete 1 ⟨[], [], 0, 0⟩ [] = none
    ∧ (runLoop 1 (run_until_complete_start ⟨[], [], 0, 0⟩ [])).2 = .stopped 0
    ∧ (none : Option Int) ≠ some 0 :=
  ⟨rfl, rfl, by simp⟩

/-- Unfolding equation for one iteration of the fuel-bounded loop. -/
theorem runLoop_succ (fuel : Nat) (st : LoopState) :
    runLoop (fuel + 1) st =
      match selectFrom st with
      | .idle => ([], .idle)
      | .run e _ st1 =>
        match execEntry st1 e with
        | .next st2 => (evOf e st1.clock :: (runLoop fuel st2).1, (runLoop fuel st2).2)
        | .halt o => ([evOf e st1.clock], o) := rfl

theorem popMin_single (e : Entry) : popMin [e] = some (e, []) := rfl

/-- Helper: a single generator that yields the bare integer delays of the
given list and then StopLoop(0) drives the loop to the stopped 0 outcome,
from any start clock and any due time of its initial entry. -/
theorem runLoop_yInt_chain (delays : List Nat) :
    ∀ (due clock : Int) (tid ntid : Nat),
      (runLoop (delays.length + 1)
        ⟨[⟨due, .coro tid (delays.map (fun n => YieldV.yInt (n : Int)) ++ [.yStopLoop 0])⟩],
          [], clock, ntid⟩).2
      = .stopped 0 := by
  induction delays with
  | nil =>
    intro due clock tid ntid
    simp only [List.map_nil, List.length_nil, List.nil_append]
    rw [runLoop_succ]
    by_cases hd : due - clock ≤ 0
    · simp only [selectFrom, popMin, if_pos hd]
      rfl
    · simp only [selectFrom, popMin, if_neg hd]
      rfl
  | cons d ds ih =>
    intro due clock tid ntid
    simp only [List.map_cons, List.length_cons, List.cons_append]
    rw [runLoop_succ]
    by_cases hd : due - clock ≤ 0
    · simp only [selectFrom, popMin, if_pos hd]
      exact ih (clock + d) clock tid ntid
    · simp only [selectFrom, popMin, if_neg hd]
      exact ih (due + d) due tid ntid

/-- Claim C5: a generator scheduled at a simulated start time t0 that yields
the bare integer 20 three times and then completes is resumed with due times
t0, t0 + 20, t0 + 40 and t0 + 60 (each reschedule at the current time plus
the yielded delay); the fourth resumption raises the completion signal and
the loop then goes idle with no further event, so the generator is never
rescheduled again. -/
theorem bare_int_delay_trace (t0 : Int) :
    runLoop 5 ⟨[⟨t0, .coro 0 [.yInt 20, .yInt 20, .yInt 20]⟩], [], t0, 1⟩
      = ([.resumeC 0 t0 t0, .resumeC 0 (t0 + 20) (t0 + 20),
          .resumeC 0 (t0 + 40) (t0 + 40), .resumeC 0 (t0 + 60) (t0 + 60)], .idle) := by
  have h1 : t0 - t0 ≤ 0 := by omega
  have h2 : ¬ (t0 + 20 - t0 ≤ 0) := by omega
  have h3 : ¬ (t0 + 20 + 20 - (t0 + 20) ≤ 0) := by omega
  have h4 : ¬ (t0 + 20 + 20 + 20 - (t0 + 20 + 20) ≤ 0) := by omega
  show runLoop (4 + 1) _ = _
  rw [runLoop_succ]
  simp only [selectFrom, popMin, if_pos h1, execEntry, interpretYield, isSysCall1, evOf]
  show (_ :: (runLoop (3 + 1) _).1, (runLoop (3 + 1) _).2) = _
  rw [runLoop_succ]
  simp only [selectFrom, popMin, if_neg h2, execEntry, interpretYield, isSysCall1, evOf]
  show (_ :: _ :: (runLoop (2 + 1) _).1, (runLoop (2 + 1) _).2) = _
  rw [runLoop_succ]
  simp only [selectFrom, popMin, if_neg h3, execEntry, interpretYield, isSysCall1, evOf]
  show (_ :: _ :: _ :: (runLoop (1 + 1) _).1, (runLoop (1 + 1) _).2) = _
  rw [runLoop_succ]
  simp only [selectFrom, popMin, if_neg h4, execEntry, interpretYield, isSysCall1, evOf]
  show (_ :: _ :: _ :: _ :: (runLoop (0 + 1) _).1, (runLoop (0 + 1) _).2) = _
  rw [runLoop_succ]
  simp only [selectFrom, popMin]
  norm_num [add_assoc]

/-- Claim C6: a generator yielding a bare nested generator g causes exactly
two pushes, both due at the current time: g under a fresh id (call_soon) and
the original generator at delay 0 (the fall-through reschedule); in a
concrete run both the spawned and the original generator are resumed. -/
theorem spawn_two_entries_both_run :
    (∀ (st : LoopState) (tid : Nat) (g rest : List YieldV) (due : Int),
       execEntry st ⟨due, .coro tid (.yCoro g :: rest)⟩
         = .next { st with
             q := st.q ++ [⟨st.clock, .coro st.nextTid g⟩, ⟨st.clock + 0, .coro tid rest⟩],
             nextTid := st.nextTid + 1 })
    ∧ runLoop 5 ⟨[⟨0, .coro 0 [.yCoro [.yNone]]⟩], [], 0, 1⟩
        = ([.resumeC 0 0 0, .resumeC 1 0 0, .resumeC 0 0 0, .resumeC 1 0 0], .idle) := by
  constructor
  · intro st tid g rest due; rfl
  · rfl

/-- Claim C4: a generator yielding the low-priority sentinel is pushed onto
the low-priority queue with the normal queue untouched (no reschedule); on
the pop side, whenever the earliest normal entry is due the selection pops
the normal queue and never the low-priority queue, and whenever the normal
head is not yet due and the low-priority queue is non-empty the selection
pops the low-priority queue with the clock unchanged, hence before any
blocking wait. -/
theorem lp_pop_policy :
    (∀ (st : LoopState) (tid : Nat) (rest : List YieldV) (due : Int),
       execEntry st ⟨due, .coro tid (.yLowPriority :: rest)⟩
         = .next { st with lpq := st.lpq ++ [⟨st.clock, .coro tid rest⟩] })
    ∧ (∀ (st : LoopState) (e : Entry) (qrest : List Entry),
         popMin st.q = some (e, qrest) →
         (e.due - st.clock ≤ 0 → selectFrom st = .run e false { st with q := qrest })
         ∧ (∀ le lrest, ¬ e.due - st.clock ≤ 0 → popMin st.lpq = some (le, lrest) →
              selectFrom st = .run le true { st with lpq := lrest })) := by
  constructor
  · intro st tid rest due; rfl
  · intro st e qrest hpop
    constructor
    · intro hdue
      simp only [selectFrom, hpop, if_pos hdue]
    · intro le lrest hgt hlp
      simp only [selectFrom, hpop, if_neg hgt, hlp]

/-- Witness for C4 on concrete states: a due normal entry wins over a
waiting low-priority entry, and a non-due normal head lets the low-priority
entry run. -/
theorem lp_pop_policy_witness :
    selectFrom ⟨[⟨0, .coro 0 []⟩], [⟨0, .coro 1 []⟩], 0, 2⟩
      = .run ⟨0, .coro 0 []⟩ false ⟨[], [⟨0, .coro 1 []⟩], 0, 2⟩
    ∧ selectFrom ⟨[⟨5, .coro 0 []⟩], [⟨0, .coro 1 []⟩], 0, 2⟩
      = .run ⟨0, .coro 1 []⟩ true ⟨[⟨5, .coro 0 []⟩], [], 0, 2⟩ :=
  ⟨(lp_pop_policy.2 ⟨[⟨0, .coro 0 []⟩], [⟨0, .coro 1 []⟩], 0, 2⟩
      ⟨0, .coro 0 []⟩ [] rfl).1 (by norm_num),
   (lp_pop_policy.2 ⟨[⟨5, .coro 0 []⟩], [⟨0, .coro 1 []⟩], 0, 2⟩
      ⟨5, .coro 0 []⟩ [] rfl).2 ⟨0, .coro 1 []⟩ [] (by norm_num) rfl⟩

theorem popMin_mem : ∀ (l : List Entry) (e : Entry) (rest : List Entry),
    popMin l = some (e, rest) → e ∈ l := by
  intro l
  induction l with
  | nil => intro e rest h; simp [popMin] at h
  | cons a as ih =>
    intro e rest h
    simp only [popMin] at h
    split at h
    · simp only [Option.some.injEq, Prod.mk.injEq] at h
      exact h.1 ▸ List.mem_cons_self a as
    · split at h
      · simp only [Option.some.injEq, Prod.mk.injEq] at h
        exact h.1 ▸ List.mem_cons_self a as
      · simp only [Option.some.injEq, Prod.mk.injEq] at h
        rename_i m r hm _
        exact h.1 ▸ List.mem_cons_of_mem a (ih m r hm)

theorem popMin_subset : ∀ (l : List Entry) (e : Entry) (rest : List Entry),
    popMin l = some (e, rest) → ∀ x ∈ rest, x ∈ l := by
  intro l
  induction l with
  | nil => intro e rest h; simp [popMin] at h
  | cons a as ih =>
    intro e rest h x hx
    simp only [popMin] at h
    split at h
    · simp only [Option.some.injEq, Prod.mk.injEq] at h
      rw [← h.2] at hx
      simp at hx
    · split at h
      · simp only [Option.some.injEq, Prod.mk.injEq] at h
        rw [← h.2] at hx
        exact List.mem_cons_of_mem a hx
      · simp only [Option.some.injEq, Prod.mk.injEq] at h
        rename_i m r hm _
        rw [← h.2] at hx
        rcases List.mem_cons.mp hx with h1 | h2
        · exact h1 ▸ List.mem_cons_self a as
        · exact List.mem_cons_of_mem a (ih m r hm x h2)

theorem selectFrom_run (st : LoopState) (e : Entry) (b : Bool) (st1 : LoopState)
    (h : selectFrom st = .run e b st1) :
    (e ∈ st.q ∨ e ∈ st.lpq)
    ∧ (∀ x ∈ st1.q, x ∈ st.q) ∧ (∀ x ∈ st1.lpq, x ∈ st.lpq)
    ∧ st1.nextTid = st.nextTid := by
  unfold selectFrom at h
  split at h
  · rename_i qe qrest hq
    split at h
    · cases h
      exact ⟨Or.inl (popMin_mem st.q e qrest hq),
             popMin_subset st.q e qrest hq, fun x hx => hx, rfl⟩
    · split at h
      · rename_i le lrest hl
        cases h
        exact ⟨Or.inr (popMin_mem st.lpq e lrest hl),
               fun x hx => hx, popMin_subset st.lpq e lrest hl, rfl⟩
      · cases h
        exact ⟨Or.inl (popMin_mem st.q e qrest hq),
               popMin_subset st.q e qrest hq, fun x hx => hx, rfl⟩
  · rename_i hq
    split at h
    · rename_i le lrest hl
      cases h
      exact ⟨Or.inr (popMin_mem st.lpq e lrest hl),
             fun x hx => hx, popMin_subset st.lpq e lrest hl, rfl⟩
    · cases h

theorem mem_tidsOf (l : List Entry) (t : Nat) :
    t ∈ tidsOf l ↔ ∃ a ∈ l, a.run.tidOf = some t := by
  simp [tidsOf, List.mem_filterMap]

theorem mem_coroTids (st : LoopState) (t : Nat) :
    t ∈ coroTids st ↔ (∃ a ∈ st.q, a.run.tidOf = some t) ∨ (∃ a ∈ st.lpq, a.run.tidOf = some t) := by
  simp [coroTids, tidsOf, List.mem_filterMap, List.mem_append]

theorem mem_coroTids_push_q (st : LoopState) (x : Entry) (c : Int) (n : Nat) (t : Nat) :
    t ∈ coroTids ⟨st.q ++ [x], st.lpq, c, n⟩
      ↔ t ∈ coroTids st ∨ x.run.tidOf = some t := by
  rw [mem_coroTids, mem_coroTids]
  constructor
  · rintro (⟨a, ha, hta⟩ | ⟨a, ha, hta⟩)
    · rcases List.mem_append.mp ha with h1 | h2
      · exact Or.inl (Or.inl ⟨a, h1, hta⟩)
      · rw [List.mem_singleton] at h2; subst h2; exact Or.inr hta
    · exact Or.inl (Or.inr ⟨a, ha, hta⟩)
  · rintro ((⟨a, ha, hta⟩ | ⟨a, ha, hta⟩) | hx)
    · exact Or.inl ⟨a, List.mem_append.mpr (Or.inl ha), hta⟩
    · exact Or.inr ⟨a, ha, hta⟩
    · exact Or.inl ⟨x, List.mem_append.mpr (Or.inr (List.mem_singleton.mpr rfl)), hx⟩

theorem mem_coroTids_push_q2 (st : LoopState) (x y : Entry) (c : Int) (n : Nat) (t : Nat) :
    t ∈ coroTids ⟨st.q ++ [x, y], st.lpq, c, n⟩
      ↔ t ∈ coroTids st ∨ x.run.tidOf = some t ∨ y.run.tidOf = some t := by
  rw [mem_coroTids, mem_coroTids]
  constructor
  · rintro (⟨a, ha, hta⟩ | ⟨a, ha, hta⟩)
    · rcases List.mem_append.mp ha with h1 | h2
      · exact Or.inl (Or.inl ⟨a, h1, hta⟩)
      · rcases List.mem_cons.mp h2 with h3 | h4
        · subst h3; exact Or.inr (Or.inl hta)
        · rw [List.mem_singleton] at h4; subst h4; exact Or.inr (Or.inr hta)
    · exact Or.inl (Or.inr ⟨a, ha, hta⟩)
  · rintro ((⟨a, ha, hta⟩ | ⟨a, ha, hta⟩) | hx | hy)
    · exact Or.inl ⟨a, List.mem_append.mpr (Or.inl ha), hta⟩
    · exact Or.inr ⟨a, ha, hta⟩
    · exact Or.inl ⟨x, List.mem_append.mpr (Or.inr (List.mem_cons_self x [y])), hx⟩
    · exact Or.inl ⟨y, List.mem_append.mpr (Or.inr (List.mem_cons_of_mem x (List.mem_singleton.mpr rfl))), hy⟩

theorem mem_coroTids_push_lpq (st : LoopState) (x : Entry) (c : Int) (n : Nat) (t : Nat) :
    t ∈ coroTids ⟨st.q, st.lpq ++ [x], c, n⟩
      ↔ t ∈ coroTids st ∨ x.run.tidOf = some t := by
  rw [mem_coroTids, mem_coroTids]
  constructor
  · rintro (⟨a, ha, hta⟩ | ⟨a, ha, hta⟩)
    · exact Or.inl (Or.inl ⟨a, ha, hta⟩)
    · rcases List.mem_append.mp ha with h1 | h2
      · exact Or.inl (Or.inr ⟨a, h1, hta⟩)
      · rw [List.mem_singleton] at h2; subst h2; exact Or.inr hta
  · rintro ((⟨a, ha, hta⟩ | ⟨a, ha, hta⟩) | hx)
    · exact Or.inl ⟨a, ha, hta⟩
    · exact Or.inr ⟨a, List.mem_append.mpr (Or.inl ha), hta⟩
    · exact Or.inr ⟨x, List.mem_append.mpr (Or.inr (List.mem_singleton.mpr rfl)), hx⟩

theorem execEntry_next_tids (st : LoopState) (e : Entry) (st2 : LoopState)
    (h : execEntry st e = .next st2) :
    st.nextTid ≤ st2.nextTid
    ∧ ∀ t, t ∈ coroTids st2 →
        t ∈ coroTids st ∨ e.run.tidOf = some t
        ∨ (t = st.nextTid ∧ st2.nextTid = st.nextTid + 1) := by
  unfold execEntry at h
  split at h
  · cases h
    exact ⟨le_refl _, fun t ht => Or.inl ht⟩
  · rename_i tid code heq
    split at h
    · cases h
      exact ⟨le_refl _, fun t ht => Or.inl ht⟩
    · rename_i y rest
      split at h
      · cases h
        refine ⟨le_refl _, fun t ht => ?_⟩
        rcases (mem_coroTids_push_q st _ _ _ t).mp ht with h1 | h2
        · exact Or.inl h1
        · refine Or.inr (Or.inl ?_)
          rw [heq]
          simpa [Runnable.tidOf] using h2
      · cases h
        refine ⟨Nat.le_succ _, fun t ht => ?_⟩
        rcases (mem_coroTids_push_q2 st _ _ _ _ t).mp ht with h1 | h2 | h3
        · exact Or.inl h1
        · refine Or.inr (Or.inr ?_)
          simp only [Runnable.tidOf, Option.some.injEq] at h2
          exact ⟨h2.symm, rfl⟩
        · refine Or.inr (Or.inl ?_)
          rw [heq]
          simpa [Runnable.tidOf] using h3
      · cases h; exact ⟨le_refl _, fun t ht => Or.inl ht⟩
      · cases h; exact ⟨le_refl _, fun t ht => Or.inl ht⟩
      · cases h
        refine ⟨le_refl _, fun t ht => ?_⟩
        rcases (mem_coroTids_push_q st _ _ _ t).mp ht with h1 | h2
        · exact Or.inl h1
        · refine Or.inr (Or.inl ?_)
          rw [heq]
          simpa [Runnable.tidOf] using h2
      · cases h
        refine ⟨le_refl _, fun t ht => ?_⟩
        rcases (mem_coroTids_push_q st _ _ _ t).mp ht with h1 | h2
        · exact Or.inl h1
        · refine Or.inr (Or.inl ?_)
          rw [heq]
          simpa [Runnable.tidOf] using h2
      · cases h
      · cases h
        refine ⟨le_refl _, fun t ht => ?_⟩
        rcases (mem_coroTids_push_lpq st _ _ _ t).mp ht with h1 | h2
        · exact Or.inl h1
        · refine Or.inr (Or.inl ?_)
          rw [heq]
          simpa [Runnable.tidOf] using h2
      · cases h
      · cases h

theorem runLoop_idle (fuel : Nat) (st : LoopState) (hsel : selectFrom st = .idle) :
    runLoop (fuel + 1) st = ([], .idle) := by
  rw [runLoop_succ]; simp only [hsel]

theorem runLoop_run_next (fuel : Nat) (st : LoopState) (e : Entry) (b : Bool)
    (st1 st2 : LoopState) (hsel : selectFrom st = .run e b st1)
    (hex : execEntry st1 e = .next st2) :
    runLoop (fuel + 1) st
      = (evOf e st1.clock :: (runLoop fuel st2).1, (runLoop fuel st2).2) := by
  rw [runLoop_succ]; simp only [hsel, hex]

theorem runLoop_run_halt (fuel : Nat) (st : LoopState) (e : Entry) (b : Bool)
    (st1 : LoopState) (o : Outcome) (hsel : selectFrom st = .run e b st1)
    (hex : execEntry st1 e = .halt o) :
    runLoop (fuel + 1) st = ([evOf e st1.clock], o) := by
  rw [runLoop_succ]; simp only [hsel, hex]

theorem noResume : ∀ (fuel : Nat) (st : LoopState) (tid : Nat),
    (∀ t ∈ coroTids st, t < st.nextTid) → tid ∉ coroTids st → tid < st.nextTid →
    ∀ due clk, Ev.resumeC tid due clk ∉ (runLoop fuel st).1 := by
  intro fuel
  induction fuel with
  | zero => intro st tid _ _ _ due clk; simp [runLoop]
  | succ n ih =>
    intro st tid hbound hnot hlt due clk
    cases hsel : selectFrom st with
    | idle => rw [runLoop_idle n st hsel]; simp
    | run e b st1 =>
      obtain ⟨hmem, hsubq, hsublp, hnt⟩ := selectFrom_run st e b st1 hsel
      have hsub : ∀ t ∈ coroTids st1, t ∈ coroTids st := by
        intro t htm
        rw [mem_coroTids] at htm ⊢
        rcases htm with ⟨a, ha, hta⟩ | ⟨a, ha, hta⟩
        · exact Or.inl ⟨a, hsubq a ha, hta⟩
        · exact Or.inr ⟨a, hsublp a ha, hta⟩
      have hbound1 : ∀ t ∈ coroTids st1, t < st1.nextTid := by
        intro t htm; rw [hnt]; exact hbound t (hsub t htm)
      have hnot1 : tid ∉ coroTids st1 := fun hc => hnot (hsub tid hc)
      have hlt1 : tid < st1.nextTid := hnt ▸ hlt
      have hev : evOf e st1.clock ≠ Ev.resumeC tid due clk := by
        unfold evOf
        cases hr : e.run with
        | cb => simp
        | coro t2 c2 =>
          have htin : t2 ∈ coroTids st := by
            rw [mem_coroTids]
            rcases hmem with h1 | h2
            · exact Or.inl ⟨e, h1, by rw [hr]; rfl⟩
            · exact Or.inr ⟨e, h2, by rw [hr]; rfl⟩
          intro hc
          simp only [Ev.resumeC.injEq] at hc
          exact hnot (hc.1 ▸ htin)
      cases hex : execEntry st1 e with
      | halt o =>
        rw [runLoop_run_halt n st e b st1 o hsel hex]
        simp only [List.mem_singleton]
        exact fun hc => hev hc.symm
      | next st2 =>
        obtain ⟨hle2, htrack⟩ := execEntry_next_tids st1 e st2 hex
        have hbound2 : ∀ t ∈ coroTids st2, t < st2.nextTid := by
          intro t htm
          rcases htrack t htm with h1 | h2 | ⟨h3, h4⟩
          · exact lt_of_lt_of_le (hbound1 t h1) hle2
          · have htin : t ∈ coroTids st := by
              rw [mem_coroTids]
              rcases hmem with hq | hl
              · exact Or.inl ⟨e, hq, h2⟩
              · exact Or.inr ⟨e, hl, h2⟩
            exact lt_of_lt_of_le (hnt ▸ hbound t htin) hle2
          · rw [h4, h3]; exact Nat.lt_succ_self _
        have hnot2 : tid ∉ coroTids st2 := by
          intro hc
          rcases htrack tid hc with h1 | h2 | ⟨h3, _⟩
          · exact hnot1 h1
          · apply hnot
            rw [mem_coroTids]
            rcases hmem with hq | hl
            · exact Or.inl ⟨e, hq, h2⟩
            · exact Or.inr ⟨e, hl, h2⟩
          · exact absurd (h3 ▸ hlt1) (lt_irrefl _)
        have hlt2 : tid < st2.nextTid := lt_of_lt_of_le hlt1 hle2
        rw [runLoop_run_next n st e b st1 st2 hsel hex]
        intro hc
        rcases List.mem_cons.mp hc with h1 | h2
        · exact hev h1.symm
        · exact ih st2 tid hbound2 hnot2 hlt2 due clk h2

/-- Claim C7: when the resumption of a selected generator raises the
completion signal, the loop continues with the post-selection state
unchanged - the generator is retired without any reschedule; and a
generator id that is absent from both queues (and below the fresh-id
counter, as every id handed out by the loop is) is never resumed in any
later iteration. -/
theorem completed_coroutine_never_resumed :
    (∀ (fuel : Nat) (st st1 : LoopState) (due : Int) (tid : Nat) (b : Bool),
       selectFrom st = .run ⟨due, .coro tid []⟩ b st1 →
       runLoop (fuel + 1) st
         = (Ev.resumeC tid due st1.clock :: (runLoop fuel st1).1, (runLoop fuel st1).2))
    ∧ (∀ (fuel : Nat) (st : LoopState) (tid : Nat),
        (∀ t ∈ coroTids st, t < st.nextTid) → tid ∉ coroTids st → tid < st.nextTid →
        ∀ due clk, Ev.resumeC tid due clk ∉ (runLoop fuel st).1) := by
  constructor
  · intro fuel st st1 due tid b hsel
    exact runLoop_run_next fuel st ⟨due, .coro tid []⟩ b st1 st1 hsel rfl
  · exact noResume

/-- Witness for C7: a completed generator is retired with no reschedule, and
the retired id 0 never shows up in a later run. -/
theorem completed_coroutine_never_resumed_witness :
    runLoop 1 ⟨[⟨0, .coro 1 []⟩], [], 0, 2⟩
      = (Ev.resumeC 1 0 0 :: (runLoop 0 ⟨[], [], 0, 2⟩).1, (runLoop 0 ⟨[], [], 0, 2⟩).2)
    ∧ Ev.resumeC 0 0 0 ∉ (runLoop 3 ⟨[⟨0, .coro 1 [.yNone]⟩], [], 0, 2⟩).1 :=
  ⟨completed_coroutine_never_resumed.1 0 ⟨[⟨0, .coro 1 []⟩], [], 0, 2⟩
      ⟨[], [], 0, 2⟩ 0 1 false rfl,
   completed_coroutine_never_resumed.2 3 ⟨[⟨0, .coro 1 [.yNone]⟩], [], 0, 2⟩ 0
     (by decide) (by decide) (by decide) 0 0⟩

/-- Claim C2 (amended): for every coroutine that completes naturally without
yielding StopLoop (here: any finite sequence of bare nonnegative integer
delays), run_until_complete terminates run_forever through the synthetic
StopLoop(0) - the loop outcome is stopped 0 - but run_until_complete itself
discards that value and returns None. -/
theorem run_until_complete_stops_loop_with_zero (delays : List Nat) (clock : Int) (ntid : Nat) :
    (runLoop (delays.length + 1)
      (run_until_complete_start ⟨[], [], clock, ntid⟩
        (delays.map (fun n => YieldV.yInt (n : Int))))).2 = .stopped 0
    ∧ run_until_complete (delays.length + 1) ⟨[], [], clock, ntid⟩
        (delays.map (fun n => YieldV.yInt (n : Int))) = none := by
  constructor
  · exact runLoop_yInt_chain delays clock clock ntid (ntid + 1)
  · rfl
